import Mathlib

/-!
Verification of the netlink message codec of `truenas_pynetif`.

This file gives a shallow embedding of the pure core of
`src/truenas_pynetif/netlink/_core.py` (attribute packing `pack_nlattr`,
message packing `pack_nlmsg`, attribute parsing `parse_attrs`, the receive
loop `recv_msgs`), of the address decoder `_parse_address_payload` and the
`AddressInfo` record of `src/truenas_pynetif/address/netlink.py`, and of
the request builder `add_address` of
`src/truenas_pynetif/address/address.py`, together with theorems about
their behaviour.

Byte strings are modelled as `List Nat` (Python `bytes`; every value a
Python `bytes` object can hold is below 256, but most statements hold for
arbitrary naturals and are quantified accordingly).  `struct.pack` with
formats `B`, `H`, `I` produces little-endian fixed-width fields and raises
`struct.error` on out-of-range values; the embedding uses the `% 2^w`
truncations explicitly and the theorems carry the in-range hypotheses
under which the Python code does not raise.  Python slicing `b[a:c]`
clamps at the end of the buffer and never raises; `pySlice` models that.
-/

namespace PyNetif

/-- Bit trick `(n + 3) & ~3` from the Python source: round `n` up to the
next multiple of 4 (on non-negative ints, `& ~3` clears the low two bits). -/
def align4 (n : Nat) : Nat := (n + 3) / 4 * 4

/-- Model of `struct.pack("H", v)`: two little-endian bytes. -/
def pack16 (v : Nat) : List Nat := [v % 256, v / 256 % 256]

/-- Model of `struct.pack("I", v)`: four little-endian bytes. -/
def pack32 (v : Nat) : List Nat :=
  [v % 256, v / 256 % 256, v / 65536 % 256, v / 16777216 % 256]

/-- Model of `struct.unpack_from("H", data, o)[0]`.  Out-of-range reads are
given the default 0; every use below is guarded exactly as the source is. -/
def read16 (data : List Nat) (o : Nat) : Nat :=
  data.getD o 0 + 256 * data.getD (o + 1) 0

/-- Model of `struct.unpack_from("I", data, o)[0]`. -/
def read32 (data : List Nat) (o : Nat) : Nat :=
  data.getD o 0 + 256 * data.getD (o + 1) 0 + 65536 * data.getD (o + 2) 0 +
    16777216 * data.getD (o + 3) 0

/-- Model of `struct.unpack_from("i", data, o)[0]`: the signed reading of
the same four bytes (two's complement). -/
def readI32 (data : List Nat) (o : Nat) : Int :=
  if read32 data o < 2 ^ 31 then (read32 data o : Int)
  else (read32 data o : Int) - 2 ^ 32

/-- Model of the Python slice `data[a : b]` for `a ≤ b`: it clamps at the
end of the buffer and never raises. -/
def pySlice (data : List Nat) (a b : Nat) : List Nat := (data.take b).drop a

/-- Embedding of `pack_nlattr` (src/truenas_pynetif/netlink/_core.py):
`struct.pack("HH", nla_len, attr_type) + data + b"\x00" * padding` with
`nla_len = 4 + len(data)` and padding up to `(nla_len + 3) & ~3`. -/
def pack_nlattr (attr_type : Nat) (data : List Nat) : List Nat :=
  pack16 (4 + data.length) ++ pack16 attr_type ++ data ++
    List.replicate (align4 (4 + data.length) - (4 + data.length)) 0

/-- Embedding of `pack_nlattr_nested`: sets the NESTED flag 0x8000 on the
attribute type. -/
def pack_nlattr_nested (attr_type : Nat) (attrs : List Nat) : List Nat :=
  pack_nlattr (attr_type ||| 0x8000) attrs

/-- Embedding of `pack_nlmsg`:
`struct.pack("IHHII", 16 + len(payload), msg_type, flags, seq, 0) + payload`. -/
def pack_nlmsg (msg_type flags : Nat) (payload : List Nat) (seq : Nat) : List Nat :=
  pack32 (16 + payload.length) ++ pack16 msg_type ++ pack16 flags ++
    pack32 seq ++ pack32 0 ++ payload

/-- Attribute maps: Python `dict[int, bytes]` as an association list in
insertion order. -/
abbrev AttrMap := List (Nat × List Nat)

/-- Python `dict` assignment `attrs[k] = v`: update in place when the key
exists, append otherwise. -/
def dictInsert (m : AttrMap) (k : Nat) (v : List Nat) : AttrMap :=
  match m with
  | [] => [(k, v)]
  | (k', v') :: rest =>
    if k' = k then (k, v) :: rest else (k', v') :: dictInsert rest k v

/-- Loop body of `parse_attrs`: while `offset + 4 <= len(data)` read the
attribute header, stop on `nla_len < 4`, store the (possibly clamped)
value slice under the type with the nested bit stripped, and advance by
the 4-byte-aligned attribute length. -/
def parse_attrs_loop (data : List Nat) (offset : Nat) (attrs : AttrMap) : AttrMap :=
  if offset + 4 ≤ data.length then
    if read16 data offset < 4 then attrs
    else
      parse_attrs_loop data (offset + align4 (read16 data offset))
        (dictInsert attrs (read16 data (offset + 2) &&& 0x7FFF)
          (pySlice data (offset + 4) (offset + read16 data offset)))
  else attrs
termination_by data.length - offset
decreasing_by
  simp only [align4]
  omega

/-- Embedding of `parse_attrs` (src/truenas_pynetif/netlink/_core.py),
starting from an empty dict. -/
def parse_attrs (data : List Nat) (offset : Nat) : AttrMap :=
  parse_attrs_loop data offset []

/-- Rounding up to a multiple of 4 never shrinks. -/
theorem le_align4 (n : Nat) : n ≤ align4 n := by
  have := Nat.div_add_mod (n + 3) 4
  have h2 : (n + 3) % 4 < 4 := Nat.mod_lt _ (by omega)
  simp only [align4]
  omega

/-- The rounded value is below `n + 4`. -/
theorem align4_lt (n : Nat) : align4 n < n + 4 := by
  have := Nat.div_add_mod (n + 3) 4
  have h2 : (n + 3) % 4 < 4 := Nat.mod_lt _ (by omega)
  simp only [align4]
  omega

/-- The rounded value is a multiple of 4. -/
theorem align4_mod (n : Nat) : align4 n % 4 = 0 := by
  simp only [align4]
  omega

theorem pack16_length (v : Nat) : (pack16 v).length = 2 := rfl

theorem pack32_length (v : Nat) : (pack32 v).length = 4 := rfl

theorem pack_nlattr_length (t : Nat) (d : List Nat) :
    (pack_nlattr t d).length = align4 (4 + d.length) := by
  have h := le_align4 (4 + d.length)
  simp only [pack_nlattr, List.length_append, pack16_length, List.length_replicate]
  omega

theorem pack_nlmsg_length (ty fl : Nat) (pl : List Nat) (seq : Nat) :
    (pack_nlmsg ty fl pl seq).length = 16 + pl.length := by
  simp only [pack_nlmsg, List.length_append, pack16_length, pack32_length]

theorem getD_append_right (l₁ l₂ : List Nat) (i d : Nat) :
    (l₁ ++ l₂).getD (l₁.length + i) d = l₂.getD i d := by
  have h : l₁.length ≤ l₁.length + i := Nat.le_add_right _ _
  simp [List.getD, List.getElem?_append_right h]

/-- Reading a 16-bit field just past a known-length part. -/
theorem read16_shift (pre d : List Nat) (i : Nat) :
    read16 (pre ++ d) (pre.length + i) = read16 d i := by
  simp only [read16]
  rw [show pre.length + i + 1 = pre.length + (i + 1) by omega]
  rw [getD_append_right, getD_append_right]

theorem read32_shift (pre d : List Nat) (i : Nat) :
    read32 (pre ++ d) (pre.length + i) = read32 d i := by
  simp only [read32]
  rw [show pre.length + i + 1 = pre.length + (i + 1) by omega,
      show pre.length + i + 2 = pre.length + (i + 2) by omega,
      show pre.length + i + 3 = pre.length + (i + 3) by omega]
  rw [getD_append_right, getD_append_right, getD_append_right, getD_append_right]

theorem val16_eq (v : Nat) : v % 256 + 256 * (v / 256 % 256) = v % 65536 := by
  omega

theorem read16_pack16 (v : Nat) (rest : List Nat) :
    read16 (pack16 v ++ rest) 0 = v % 65536 := by
  simp only [pack16, read16, List.cons_append, List.nil_append,
    List.getD_cons_zero, List.getD_cons_succ]
  omega

theorem read32_pack32 (v : Nat) (rest : List Nat) :
    read32 (pack32 v ++ rest) 0 = v % 4294967296 := by
  simp only [pack32, read32, List.cons_append, List.nil_append,
    List.getD_cons_zero, List.getD_cons_succ]
  omega

/-- Extracting the middle part of a three-part buffer with the exact slice
bounds. -/
theorem pySlice_exact (pre mid post : List Nat) :
    pySlice (pre ++ mid ++ post) pre.length (pre.length + mid.length) = mid := by
  simp only [pySlice]
  rw [List.append_assoc, List.take_append_eq_append_take]
  rw [List.take_of_length_le (by omega)]
  rw [show pre.length + mid.length - pre.length = mid.length by omega]
  rw [List.drop_append_eq_append_drop, List.drop_of_length_le (by omega)]
  simp [List.take_append_eq_append_take, List.take_of_length_le (Nat.le_refl mid.length)]

theorem pySlice_shift (pre d : List Nat) (a b : Nat) :
    pySlice (pre ++ d) (pre.length + a) (pre.length + b) = pySlice d a b := by
  simp only [pySlice, List.take_append]
  exact List.drop_append a

theorem pySlice_front (v z : List Nat) : pySlice (v ++ z) 0 v.length = v := by
  simp only [pySlice, List.drop_zero]
  exact List.take_left v z

theorem read16_nlattr_len (t : Nat) (v rest : List Nat) :
    read16 (pack_nlattr t v ++ rest) 0 = (4 + v.length) % 65536 := by
  simp only [pack_nlattr, List.append_assoc]
  exact read16_pack16 _ _

theorem read16_nlattr_type (t : Nat) (v rest : List Nat) :
    read16 (pack_nlattr t v ++ rest) 2 = t % 65536 := by
  simp only [pack_nlattr, List.append_assoc]
  have h := read16_shift (pack16 (4 + v.length))
    (pack16 t ++ (v ++ (List.replicate (align4 (4 + v.length) - (4 + v.length)) 0 ++ rest))) 0
  simp only [pack16_length, Nat.add_zero] at h
  rw [h]
  exact read16_pack16 _ _

theorem pySlice_nlattr (t : Nat) (v rest : List Nat) :
    pySlice (pack_nlattr t v ++ rest) 4 (4 + v.length) = v := by
  have key : pack_nlattr t v ++ rest =
      (pack16 (4 + v.length) ++ pack16 t) ++
        (v ++ (List.replicate (align4 (4 + v.length) - (4 + v.length)) 0 ++ rest)) := by
    simp [pack_nlattr, List.append_assoc]
  rw [key]
  have hA : ((pack16 (4 + v.length) ++ pack16 t) : List Nat).length = 4 := by
    simp [pack16_length]
  have h := pySlice_shift (pack16 (4 + v.length) ++ pack16 t)
    (v ++ (List.replicate (align4 (4 + v.length) - (4 + v.length)) 0 ++ rest)) 0 v.length
  rw [hA] at h
  simp only [Nat.add_zero] at h
  rw [h]
  exact pySlice_front _ _

/-- One iteration of the `parse_attrs` loop, positioned at a well-formed
encoded attribute: it stores the payload under the type with the nested
bit stripped and advances by the aligned attribute length. -/
theorem parse_attrs_step (pre rest v : List Nat) (t : Nat) (acc : AttrMap)
    (ht : t < 65536) (hv : 4 + v.length < 65536) :
    parse_attrs_loop (pre ++ (pack_nlattr t v ++ rest)) pre.length acc
      = parse_attrs_loop (pre ++ (pack_nlattr t v ++ rest))
          (pre.length + align4 (4 + v.length)) (dictInsert acc (t &&& 0x7FFF) v) := by
  have hr0 : read16 (pre ++ (pack_nlattr t v ++ rest)) pre.length = 4 + v.length := by
    have h := read16_shift pre (pack_nlattr t v ++ rest) 0
    simp only [Nat.add_zero] at h
    rw [h, read16_nlattr_len, Nat.mod_eq_of_lt hv]
  have hr2 : read16 (pre ++ (pack_nlattr t v ++ rest)) (pre.length + 2) = t := by
    rw [read16_shift, read16_nlattr_type, Nat.mod_eq_of_lt ht]
  have hguard : pre.length + 4 ≤ (pre ++ (pack_nlattr t v ++ rest)).length := by
    have h1 := le_align4 (4 + v.length)
    simp only [List.length_append, pack_nlattr_length]
    omega
  have hslice : pySlice (pre ++ (pack_nlattr t v ++ rest)) (pre.length + 4)
      (pre.length + (4 + v.length)) = v := by
    rw [pySlice_shift, pySlice_nlattr]
  rw [parse_attrs_loop]
  rw [hr0, if_pos hguard, if_neg (by omega), hr2, hslice]

/-- Concatenation of encoded attributes: the byte string a caller builds
by appending `pack_nlattr` outputs. -/
def encodeAttrs : List (Nat × List Nat) → List Nat
  | [] => []
  | (t, v) :: tl => pack_nlattr t v ++ encodeAttrs tl

/-- The dict `parse_attrs` builds from a list of (type, payload) pairs. -/
def dictOfAttrList (l : List (Nat × List Nat)) : AttrMap :=
  l.foldl (fun m p => dictInsert m (p.1 &&& 0x7FFF) p.2) []

/-- Running the `parse_attrs` loop over a buffer that is a prefix, then a
sequence of well-formed encoded attributes, then fewer than 4 trailing
bytes: every encoded attribute is recovered, in order, and the truncated
trailing header is ignored. -/
theorem parse_attrs_loop_encode (l : List (Nat × List Nat)) (pre junk : List Nat)
    (acc : AttrMap) (hl : ∀ p ∈ l, p.1 < 65536 ∧ 4 + p.2.length < 65536)
    (hjunk : junk.length < 4) :
    parse_attrs_loop (pre ++ (encodeAttrs l ++ junk)) pre.length acc
      = l.foldl (fun m p => dictInsert m (p.1 &&& 0x7FFF) p.2) acc := by
  induction l generalizing pre acc with
  | nil =>
    simp only [encodeAttrs, List.nil_append, List.foldl_nil]
    rw [parse_attrs_loop]
    rw [if_neg (by simp only [List.length_append]; omega)]
  | cons p tl ih =>
    obtain ⟨t, v⟩ := p
    have hshape : encodeAttrs ((t, v) :: tl) ++ junk
        = pack_nlattr t v ++ (encodeAttrs tl ++ junk) := by
      simp [encodeAttrs, List.append_assoc]
    rw [hshape]
    rw [parse_attrs_step pre (encodeAttrs tl ++ junk) v t acc
      (hl _ (List.mem_cons_self _ _)).1 (hl _ (List.mem_cons_self _ _)).2]
    have hofs : pre.length + align4 (4 + v.length) = (pre ++ pack_nlattr t v).length := by
      simp [pack_nlattr_length]
    have hbuf : pre ++ (pack_nlattr t v ++ (encodeAttrs tl ++ junk))
        = (pre ++ pack_nlattr t v) ++ (encodeAttrs tl ++ junk) := by
      simp [List.append_assoc]
    rw [hofs, hbuf]
    rw [ih (pre ++ pack_nlattr t v) (dictInsert acc (t &&& 0x7FFF) v)
      (fun q hq => hl q (List.mem_cons_of_mem _ hq))]
    simp

/-- Mask with the low 15 bits is the identity below 2^15. -/
theorem and_mask15_eq (t : Nat) (h : t < 32768) : t &&& 32767 = t := by
  have h2 := Nat.and_pow_two_sub_one_eq_mod t 15
  norm_num at h2
  omega

/-- Parsing a buffer of well-formed encoded attributes plus fewer than 4
trailing junk bytes yields the dict of the encoded pairs (nested bits
stripped), in encounter order. -/
theorem parse_attrs_encode (l : List (Nat × List Nat)) (junk : List Nat)
    (hl : ∀ p ∈ l, p.1 < 65536 ∧ 4 + p.2.length < 65536) (hjunk : junk.length < 4) :
    parse_attrs (encodeAttrs l ++ junk) 0 = dictOfAttrList l := by
  have h := parse_attrs_loop_encode l [] junk [] hl hjunk
  simpa [parse_attrs, dictOfAttrList] using h

theorem parse_attrs_single (t : Nat) (v : List Nat) (ht : t < 65536)
    (hv : 4 + v.length < 65536) :
    parse_attrs (pack_nlattr t v) 0 = [(t &&& 0x7FFF, v)] := by
  have h := parse_attrs_encode [(t, v)] []
    (by intro p hp; simp at hp; subst hp; exact ⟨ht, hv⟩) (by simp)
  simpa [encodeAttrs, dictOfAttrList, dictInsert] using h

/-- Trailing padding of an encoded attribute: everything after the header
and payload is the zero padding up to the aligned length. -/
theorem pack_nlattr_drop (t : Nat) (d : List Nat) :
    (pack_nlattr t d).drop (4 + d.length)
      = List.replicate (align4 (4 + d.length) - (4 + d.length)) 0 := by
  have key : pack_nlattr t d = (pack16 (4 + d.length) ++ (pack16 t ++ d)) ++
      List.replicate (align4 (4 + d.length) - (4 + d.length)) 0 := by
    simp [pack_nlattr, List.append_assoc]
  have hA : ((pack16 (4 + d.length) ++ (pack16 t ++ d)) : List Nat).length
      = 4 + d.length := by
    simp [pack16_length]
    omega
  have h : ((pack16 (4 + d.length) ++ (pack16 t ++ d)) ++
        List.replicate (align4 (4 + d.length) - (4 + d.length)) 0).drop
          ((pack16 (4 + d.length) ++ (pack16 t ++ d)).length + 0)
      = (List.replicate (align4 (4 + d.length) - (4 + d.length)) 0).drop 0 :=
    List.drop_append 0
  simp only [Nat.add_zero, List.drop_zero] at h
  rw [hA] at h
  rw [key]
  exact h

/-- C1: for every attribute type with the nested bit clear and every
payload that `struct.pack("H", 4 + len)` accepts, decoding the bytes
produced by `pack_nlattr` with `parse_attrs` yields a map containing
exactly the key `t` bound to exactly the original payload bytes. -/
theorem C1_attr_roundtrip (t : Nat) (v : List Nat) (ht : t < 0x8000)
    (hv : 4 + v.length ≤ 0xFFFF) :
    parse_attrs (pack_nlattr t v) 0 = [(t, v)] := by
  rw [parse_attrs_single t v (by omega) (by omega), and_mask15_eq t ht]

/-- Witness for C1 at types 0, 1, 0x7FFF with payload lengths 0, 3, 5. -/
theorem C1_attr_roundtrip_witness :
    parse_attrs (pack_nlattr 0 []) 0 = [(0, [])] ∧
    parse_attrs (pack_nlattr 1 [9, 8, 7]) 0 = [(1, [9, 8, 7])] ∧
    parse_attrs (pack_nlattr 0x7FFF [1, 2, 3, 4, 5]) 0 = [(0x7FFF, [1, 2, 3, 4, 5])] :=
  ⟨C1_attr_roundtrip 0 [] (by decide) (by decide),
   C1_attr_roundtrip 1 [9, 8, 7] (by decide) (by decide),
   C1_attr_roundtrip 0x7FFF [1, 2, 3, 4, 5] (by decide) (by decide)⟩

/-- C5: the output of `pack_nlattr` begins with a 2-byte length field equal
to `4 + L` (the unpadded length), then the 2-byte type, then the payload,
then zero bytes, and the total output length is the smallest multiple of 4
that is at least `4 + L`. -/
theorem C5_pack_nlattr_layout (t : Nat) (d : List Nat) (ht : t ≤ 0xFFFF)
    (hd : 4 + d.length ≤ 0xFFFF) :
    read16 (pack_nlattr t d) 0 = 4 + d.length ∧
    read16 (pack_nlattr t d) 2 = t ∧
    pySlice (pack_nlattr t d) 4 (4 + d.length) = d ∧
    (pack_nlattr t d).drop (4 + d.length)
      = List.replicate ((pack_nlattr t d).length - (4 + d.length)) 0 ∧
    (pack_nlattr t d).length % 4 = 0 ∧
    4 + d.length ≤ (pack_nlattr t d).length ∧
    (pack_nlattr t d).length < 4 + d.length + 4 := by
  have hlen := pack_nlattr_length t d
  have h1 := read16_nlattr_len t d []
  have h2 := read16_nlattr_type t d []
  have h3 := pySlice_nlattr t d []
  simp only [List.append_nil] at h1 h2 h3
  refine ⟨?_, ?_, h3, ?_, ?_, ?_, ?_⟩
  · rw [h1]; omega
  · rw [h2]; omega
  · rw [pack_nlattr_drop, hlen]
  · rw [hlen]; exact align4_mod _
  · rw [hlen]; exact le_align4 _
  · rw [hlen]; exact align4_lt _

/-- Witness for C5 at type 3 with a 5-byte payload. -/
theorem C5_pack_nlattr_layout_witness :
    read16 (pack_nlattr 3 [10, 20, 30, 40, 50]) 0 = 9 ∧
    read16 (pack_nlattr 3 [10, 20, 30, 40, 50]) 2 = 3 ∧
    pySlice (pack_nlattr 3 [10, 20, 30, 40, 50]) 4 9 = [10, 20, 30, 40, 50] ∧
    (pack_nlattr 3 [10, 20, 30, 40, 50]).drop 9
      = List.replicate ((pack_nlattr 3 [10, 20, 30, 40, 50]).length - 9) 0 ∧
    (pack_nlattr 3 [10, 20, 30, 40, 50]).length % 4 = 0 ∧
    9 ≤ (pack_nlattr 3 [10, 20, 30, 40, 50]).length ∧
    (pack_nlattr 3 [10, 20, 30, 40, 50]).length < 13 :=
  C5_pack_nlattr_layout 3 [10, 20, 30, 40, 50] (by decide) (by decide)

/-- C7: `pack_nlmsg` returns the 16-byte header followed by the payload
unchanged; the header is a u32 total length equal to 16 plus the payload
length, the u16 type, the u16 flags, the u32 sequence, and a u32 port id
equal to 0. -/
theorem C7_pack_nlmsg_layout (ty fl seq : Nat) (pl : List Nat)
    (hty : ty ≤ 0xFFFF) (hfl : fl ≤ 0xFFFF) (hseq : seq < 4294967296)
    (hlen : 16 + pl.length < 4294967296) :
    read32 (pack_nlmsg ty fl pl seq) 0 = 16 + pl.length ∧
    read16 (pack_nlmsg ty fl pl seq) 4 = ty ∧
    read16 (pack_nlmsg ty fl pl seq) 6 = fl ∧
    read32 (pack_nlmsg ty fl pl seq) 8 = seq ∧
    read32 (pack_nlmsg ty fl pl seq) 12 = 0 ∧
    (pack_nlmsg ty fl pl seq).drop 16 = pl ∧
    (pack_nlmsg ty fl pl seq).length = 16 + pl.length := by
  refine ⟨?_, ?_, ?_, ?_, ?_, rfl, pack_nlmsg_length ty fl pl seq⟩
  · have h : read32 (pack_nlmsg ty fl pl seq) 0
        = (16 + pl.length) % 256 + 256 * ((16 + pl.length) / 256 % 256)
          + 65536 * ((16 + pl.length) / 65536 % 256)
          + 16777216 * ((16 + pl.length) / 16777216 % 256) := rfl
    rw [h]; omega
  · have h : read16 (pack_nlmsg ty fl pl seq) 4
        = ty % 256 + 256 * (ty / 256 % 256) := rfl
    rw [h]; omega
  · have h : read16 (pack_nlmsg ty fl pl seq) 6
        = fl % 256 + 256 * (fl / 256 % 256) := rfl
    rw [h]; omega
  · have h : read32 (pack_nlmsg ty fl pl seq) 8
        = seq % 256 + 256 * (seq / 256 % 256)
          + 65536 * (seq / 65536 % 256) + 16777216 * (seq / 16777216 % 256) := rfl
    rw [h]; omega
  · rfl

/-- Witness for C7 at type 20, flags 5, sequence 1, 3-byte payload. -/
theorem C7_pack_nlmsg_layout_witness :
    read32 (pack_nlmsg 20 5 [1, 2, 3] 1) 0 = 19 ∧
    read16 (pack_nlmsg 20 5 [1, 2, 3] 1) 4 = 20 ∧
    read16 (pack_nlmsg 20 5 [1, 2, 3] 1) 6 = 5 ∧
    read32 (pack_nlmsg 20 5 [1, 2, 3] 1) 8 = 1 ∧
    read32 (pack_nlmsg 20 5 [1, 2, 3] 1) 12 = 0 ∧
    (pack_nlmsg 20 5 [1, 2, 3] 1).drop 16 = [1, 2, 3] ∧
    (pack_nlmsg 20 5 [1, 2, 3] 1).length = 19 :=
  C7_pack_nlmsg_layout 20 5 1 [1, 2, 3] (by decide) (by decide) (by decide) (by decide)

/-- Membership after a dict update comes from the old dict or is the new
binding. -/
theorem dictInsert_mem (m : AttrMap) (k : Nat) (v : List Nat) (p : Nat × List Nat)
    (hp : p ∈ dictInsert m k v) : p ∈ m ∨ p = (k, v) := by
  induction m with
  | nil =>
    simp only [dictInsert, List.mem_singleton] at hp
    exact Or.inr hp
  | cons q rest ih =>
    obtain ⟨k', v'⟩ := q
    simp only [dictInsert] at hp
    by_cases h : k' = k
    · rw [if_pos h] at hp
      rcases List.mem_cons.1 hp with h1 | h1
      · exact Or.inr h1
      · exact Or.inl (List.mem_cons_of_mem _ h1)
    · rw [if_neg h] at hp
      rcases List.mem_cons.1 hp with h1 | h1
      · exact Or.inl (h1 ▸ List.mem_cons_self _ _)
      · rcases ih h1 with h2 | h2
        · exact Or.inl (List.mem_cons_of_mem _ h2)
        · exact Or.inr h2

/-- Every binding produced by the `parse_attrs` loop is either inherited
from the accumulator or is a header-masked type together with a clamped
slice of the buffer. -/
theorem parse_attrs_loop_mem (data : List Nat) (p : Nat × List Nat)
    (offset : Nat) (acc : AttrMap) :
    p ∈ parse_attrs_loop data offset acc →
    p ∈ acc ∨ ∃ o, p.1 = read16 data (o + 2) &&& 0x7FFF ∧
      p.2 = pySlice data (o + 4) (o + read16 data o) := by
  refine parse_attrs_loop.induct data
    (fun offset acc => p ∈ parse_attrs_loop data offset acc →
      p ∈ acc ∨ ∃ o, p.1 = read16 data (o + 2) &&& 0x7FFF ∧
        p.2 = pySlice data (o + 4) (o + read16 data o)) ?_ ?_ ?_ offset acc
  · intro offset acc hguard hlen hp
    rw [parse_attrs_loop, if_pos hguard, if_pos hlen] at hp
    exact Or.inl hp
  · intro offset acc hguard hlen ih hp
    rw [parse_attrs_loop, if_pos hguard, if_neg hlen] at hp
    rcases ih hp with h1 | h1
    · rcases dictInsert_mem _ _ _ _ h1 with h2 | h2
      · exact Or.inl h2
      · refine Or.inr ⟨offset, ?_, ?_⟩
        · rw [h2]
        · rw [h2]
    · exact Or.inr h1
  · intro offset acc hguard hp
    rw [parse_attrs_loop, if_neg hguard] at hp
    exact Or.inl hp

/-- Keys stored by `parse_attrs` always have bit 15 clear. -/
theorem parse_attrs_keys_lt (data : List Nat) (offset : Nat) (p : Nat × List Nat)
    (hp : p ∈ parse_attrs data offset) : p.1 < 0x8000 := by
  rcases parse_attrs_loop_mem data p offset [] hp with h | ⟨o, h1, _⟩
  · simp at h
  · rw [h1]
    have h2 : read16 data (o + 2) &&& 0x7FFF ≤ 0x7FFF := Nat.and_le_right
    omega

/-- Values stored by `parse_attrs` are taken from inside the buffer. -/
theorem parse_attrs_values_sublist (data : List Nat) (offset : Nat)
    (p : Nat × List Nat) (hp : p ∈ parse_attrs data offset) :
    List.Sublist p.2 data := by
  rcases parse_attrs_loop_mem data p offset [] hp with h | ⟨o, _, h2⟩
  · simp at h
  · rw [h2]
    exact List.Sublist.trans (List.drop_sublist _ _) (List.take_sublist _ _)

/-- Parsing stops immediately when fewer than 4 bytes remain. -/
theorem parse_attrs_short (data : List Nat) (offset : Nat)
    (h : data.length < offset + 4) : parse_attrs data offset = [] := by
  rw [parse_attrs, parse_attrs_loop, if_neg (by omega)]

/-- An attribute whose declared length overruns the buffer is still stored,
with its payload clamped to the end of the buffer, and scanning then ends. -/
theorem parse_attrs_overrun (data : List Nat) (offset : Nat)
    (h1 : offset + 4 ≤ data.length) (h2 : 4 ≤ read16 data offset)
    (h3 : data.length < offset + read16 data offset) :
    parse_attrs data offset
      = [(read16 data (offset + 2) &&& 0x7FFF, data.drop (offset + 4))] := by
  have hslice : pySlice data (offset + 4) (offset + read16 data offset)
      = data.drop (offset + 4) := by
    rw [pySlice, List.take_of_length_le (by omega)]
  rw [parse_attrs, parse_attrs_loop, if_pos h1, if_neg (by omega), hslice]
  have halign := le_align4 (read16 data offset)
  rw [parse_attrs_loop, if_neg (by omega)]
  rfl

/-- Decoding an attribute encoded with the nested flag set yields the base
type with the flag stripped. -/
theorem parse_attrs_nested_strip (t : Nat) (v : List Nat) (ht : t < 0x8000)
    (hv : 4 + v.length ≤ 0xFFFF) :
    parse_attrs (pack_nlattr_nested t v) 0 = [(t, v)] := by
  have h1 : t < 2 ^ 16 := by omega
  have h2 : (0x8000 : Nat) < 2 ^ 16 := by norm_num
  have hor := Nat.or_lt_two_pow h1 h2
  norm_num at hor
  have hkey : (t ||| 0x8000) &&& 0x7FFF = t := by
    rw [Nat.and_distrib_right]
    have h0 : (0x8000 : Nat) &&& 0x7FFF = 0 := by decide
    rw [h0, and_mask15_eq t ht, Nat.or_zero]
  show parse_attrs (pack_nlattr (t ||| 0x8000) v) 0 = [(t, v)]
  rw [parse_attrs_single (t ||| 0x8000) v hor (by omega), hkey]

/-- C2 (amended): `parse_attrs` stops and returns the attributes parsed so
far when fewer than 4 bytes remain for a header; every stored payload is
drawn from inside the buffer; and an attribute whose declared length would
extend past the end of the buffer is still stored, with its payload
truncated at the end of the buffer, after which scanning ends. -/
theorem C2_parse_attrs_bounds (data : List Nat) (offset : Nat) :
    (data.length < offset + 4 → parse_attrs data offset = []) ∧
    (∀ p ∈ parse_attrs data offset, List.Sublist p.2 data) ∧
    (offset + 4 ≤ data.length → 4 ≤ read16 data offset →
      data.length < offset + read16 data offset →
      parse_attrs data offset
        = [(read16 data (offset + 2) &&& 0x7FFF, data.drop (offset + 4))]) :=
  ⟨parse_attrs_short data offset,
   fun p hp => parse_attrs_values_sublist data offset p hp,
   fun h1 h2 h3 => parse_attrs_overrun data offset h1 h2 h3⟩

/-- Counterexample to C2 as stated: on a 6-byte buffer whose single
attribute header declares length 8, no attribute is fully contained in the
buffer, yet the result is not the empty map: the attribute is stored with
its payload truncated to the 2 available bytes. -/
theorem C2_parse_attrs_counterexample :
    parse_attrs [8, 0, 1, 0, 170, 187] 0 = [(1, [170, 187])] ∧
    parse_attrs [8, 0, 1, 0, 170, 187] 0 ≠ [] := by
  have h := parse_attrs_overrun [8, 0, 1, 0, 170, 187] 0 (by decide) (by decide)
    (by decide)
  rw [h]
  decide

/-- Witness for C2 (amended) at a 2-byte buffer and at the 6-byte overrun
buffer. -/
theorem C2_parse_attrs_bounds_witness :
    parse_attrs [1, 2] 0 = [] ∧
    parse_attrs [8, 0, 1, 0, 170, 187] 0 = [(1, [170, 187])] := by
  constructor
  · exact (C2_parse_attrs_bounds [1, 2] 0).1 (by decide)
  · have h := (C2_parse_attrs_bounds [8, 0, 1, 0, 170, 187] 0).2.2 (by decide)
      (by decide) (by decide)
    rw [h]
    decide

/-- C6: encoding with the nested flag set and decoding yields the base
type with the flag stripped, and every key returned by `parse_attrs`, on
any buffer, has bit 15 clear. -/
theorem C6_nested_flag_isolation (t : Nat) (v : List Nat) (ht : t < 0x8000)
    (hv : 4 + v.length ≤ 0xFFFF) :
    parse_attrs (pack_nlattr_nested t v) 0 = [(t, v)] ∧
    ∀ (data : List Nat) (offset : Nat), ∀ p ∈ parse_attrs data offset, p.1 < 0x8000 :=
  ⟨parse_attrs_nested_strip t v ht hv,
   fun data offset p hp => parse_attrs_keys_lt data offset p hp⟩

/-- Witness for C6 at type 5 with a 2-byte payload; the second conjunct is
the key bound instantiated at the decoded buffer itself. -/
theorem C6_nested_flag_isolation_witness :
    parse_attrs (pack_nlattr_nested 5 [1, 2]) 0 = [(5, [1, 2])] ∧ (5 : Nat) < 0x8000 := by
  have h := C6_nested_flag_isolation 5 [1, 2] (by decide) (by decide)
  refine ⟨h.1, ?_⟩
  exact h.2 (pack_nlattr_nested 5 [1, 2]) 0 (5, [1, 2])
    (by rw [h.1]; exact List.mem_singleton.2 rfl)

/-- Faults raised by `recv_msgs`, one constructor per exception class used
in the receive loop (src/truenas_pynetif/netlink/_exceptions.py); the
generic `NetlinkError` carries the negated (positive) kernel code. -/
inductive NLExc where
  | dumpInterrupted : NLExc
  | deviceNotFound : NLExc
  | operationNotSupported : NLExc
  | netlinkError : Int → NLExc
deriving DecidableEq

/-- Inner loop of `recv_msgs` over one `sock.recv` buffer: scan framed
messages, stop on a short header or a declared length below 16, raise on
the DUMP_INTR flag, decode ERROR messages (raising on negative codes,
otherwise marking the loop done), mark done on DONE, append any other
message as data, always advancing by the 4-byte-aligned declared length. -/
def recv_loop (data : List Nat) (offset : Nat) (messages : List (Nat × List Nat))
    (done : Bool) : Except NLExc (List (Nat × List Nat) × Bool) :=
  if offset < data.length then
    if data.length < offset + 16 then .ok (messages, done)
    else if read32 data offset < 16 then .ok (messages, done)
    else if read16 data (offset + 6) &&& 0x10 ≠ 0 then .error .dumpInterrupted
    else if read16 data (offset + 4) = 2 then
      if offset + 20 ≤ data.length then
        if readI32 data (offset + 16) < 0 then
          if -readI32 data (offset + 16) = 19 then .error .deviceNotFound
          else if -readI32 data (offset + 16) = 95 then .error .operationNotSupported
          else .error (.netlinkError (-readI32 data (offset + 16)))
        else recv_loop data (offset + align4 (read32 data offset)) messages true
      else recv_loop data (offset + align4 (read32 data offset)) messages true
    else if read16 data (offset + 4) = 3 then
      recv_loop data (offset + align4 (read32 data offset)) messages true
    else
      recv_loop data (offset + align4 (read32 data offset))
        (messages ++ [(read16 data (offset + 4),
          pySlice data (offset + 16) (offset + read32 data offset))]) done
  else .ok (messages, done)
termination_by data.length - offset
decreasing_by
  all_goals simp only [align4]
  all_goals omega

/-- Embedding of `recv_msgs` (src/truenas_pynetif/netlink/_core.py): the
socket is modelled as the list of buffers successive `sock.recv` calls
return.  `none` models the state in which the loop would block on another
`recv` because no terminating message has arrived. -/
def recv_msgs (reads : List (List Nat)) (messages : List (Nat × List Nat)) :
    Except NLExc (Option (List (Nat × List Nat))) :=
  match reads with
  | [] => .ok none
  | d :: rest =>
    match recv_loop d 0 messages false with
    | .error e => .error e
    | .ok (msgs, done) => if done then .ok (some msgs) else recv_msgs rest msgs

/-- Model of `struct.pack("i", z)`: the two's-complement little-endian
bytes of a signed 32-bit value. -/
def packI32 (z : Int) : List Nat := pack32 (z % 4294967296).toNat

theorem packI32_length (z : Int) : (packI32 z).length = 4 := rfl

theorem read32_nlmsg_len (ty fl seq : Nat) (pl more : List Nat)
    (h : 16 + pl.length < 4294967296) :
    read32 (pack_nlmsg ty fl pl seq ++ more) 0 = 16 + pl.length := by
  have hr : read32 (pack_nlmsg ty fl pl seq ++ more) 0
      = (16 + pl.length) % 256 + 256 * ((16 + pl.length) / 256 % 256)
        + 65536 * ((16 + pl.length) / 65536 % 256)
        + 16777216 * ((16 + pl.length) / 16777216 % 256) := rfl
  rw [hr]
  omega

theorem read16_nlmsg_type (ty fl seq : Nat) (pl more : List Nat) (h : ty < 65536) :
    read16 (pack_nlmsg ty fl pl seq ++ more) 4 = ty := by
  have hr : read16 (pack_nlmsg ty fl pl seq ++ more) 4
      = ty % 256 + 256 * (ty / 256 % 256) := rfl
  rw [hr]
  omega

theorem read16_nlmsg_flags (ty fl seq : Nat) (pl more : List Nat) (h : fl < 65536) :
    read16 (pack_nlmsg ty fl pl seq ++ more) 6 = fl := by
  have hr : read16 (pack_nlmsg ty fl pl seq ++ more) 6
      = fl % 256 + 256 * (fl / 256 % 256) := rfl
  rw [hr]
  omega

theorem pySlice_nlmsg (ty fl seq : Nat) (pl more : List Nat) :
    pySlice (pack_nlmsg ty fl pl seq ++ more) 16 (16 + pl.length) = pl := by
  have key : pack_nlmsg ty fl pl seq ++ more
      = (pack32 (16 + pl.length) ++ (pack16 ty ++ (pack16 fl ++
          (pack32 seq ++ pack32 0)))) ++ (pl ++ more) := by
    simp [pack_nlmsg, List.append_assoc]
  have hA : ((pack32 (16 + pl.length) ++ (pack16 ty ++ (pack16 fl ++
      (pack32 seq ++ pack32 0)))) : List Nat).length = 16 := by
    simp [pack16_length, pack32_length]
  have h := pySlice_shift (pack32 (16 + pl.length) ++ (pack16 ty ++ (pack16 fl ++
    (pack32 seq ++ pack32 0)))) (pl ++ more) 0 pl.length
  rw [hA] at h
  simp only [Nat.add_zero] at h
  rw [key, h]
  exact pySlice_front _ _

theorem readI32_nlmsg_code (ty fl seq : Nat) (code : Int) (rest more : List Nat)
    (h1 : -2147483648 ≤ code) (h2 : code < 2147483648) :
    readI32 (pack_nlmsg ty fl (packI32 code ++ rest) seq ++ more) 16 = code := by
  have hr : read32 (pack_nlmsg ty fl (packI32 code ++ rest) seq ++ more) 16
      = (code % 4294967296).toNat % 256
        + 256 * ((code % 4294967296).toNat / 256 % 256)
        + 65536 * ((code % 4294967296).toNat / 65536 % 256)
        + 16777216 * ((code % 4294967296).toNat / 16777216 % 256) := rfl
  unfold readI32
  rw [hr]
  split
  · omega
  · omega

/-- Receiving a single ERROR message (type 2): negative codes raise the
mapped fault, a non-negative code ends the loop as a successful ACK. -/
theorem recv_msgs_error (code : Int) (rest : List Nat) (seq : Nat)
    (h1 : -2147483648 ≤ code) (h2 : code < 2147483648)
    (hrest : 20 + rest.length < 4294967296) :
    recv_msgs [pack_nlmsg 2 0 (packI32 code ++ rest) seq] []
      = if code < 0 then
          (if -code = 19 then Except.error NLExc.deviceNotFound
           else if -code = 95 then Except.error NLExc.operationNotSupported
           else Except.error (NLExc.netlinkError (-code)))
        else Except.ok (some []) := by
  have hpl : (packI32 code ++ rest).length = 4 + rest.length := by
    simp [packI32_length]
  have hlen : (pack_nlmsg 2 0 (packI32 code ++ rest) seq).length = 20 + rest.length := by
    rw [pack_nlmsg_length, hpl]
    omega
  have h0 := read32_nlmsg_len 2 0 seq (packI32 code ++ rest) [] (by omega)
  have h4 := read16_nlmsg_type 2 0 seq (packI32 code ++ rest) [] (by omega)
  have h6 := read16_nlmsg_flags 2 0 seq (packI32 code ++ rest) [] (by omega)
  have hI := readI32_nlmsg_code 2 0 seq code rest [] h1 h2
  simp only [List.append_nil] at h0 h4 h6 hI
  rw [hpl] at h0
  have halign := le_align4 (16 + (4 + rest.length))
  have hend : recv_loop (pack_nlmsg 2 0 (packI32 code ++ rest) seq)
      (0 + align4 (16 + (4 + rest.length))) [] true = Except.ok ([], true) := by
    rw [recv_loop, if_neg (by rw [hlen]; omega)]
  have hloop : recv_loop (pack_nlmsg 2 0 (packI32 code ++ rest) seq) 0 [] false
      = if code < 0 then
          (if -code = 19 then Except.error NLExc.deviceNotFound
           else if -code = 95 then Except.error NLExc.operationNotSupported
           else Except.error (NLExc.netlinkError (-code)))
        else Except.ok ([], true) := by
    rw [recv_loop]
    simp only [Nat.zero_add] at h0 h4 h6 hI ⊢
    rw [hlen, h0, h4, h6, hI]
    rw [if_pos (by omega), if_neg (by omega), if_neg (by omega),
      if_neg (by decide), if_pos rfl, if_pos (by omega)]
    by_cases hneg : code < 0
    · rw [if_pos hneg, if_pos hneg]
    · rw [if_neg hneg, if_neg hneg]
      simpa using hend
  rw [recv_msgs, hloop]
  by_cases hneg : code < 0
  · rw [if_pos hneg, if_pos hneg]
    by_cases e19 : -code = 19
    · rw [if_pos e19, if_pos e19]
    · rw [if_neg e19, if_neg e19]
      by_cases e95 : -code = 95
      · rw [if_pos e95, if_pos e95]
      · rw [if_neg e95, if_neg e95]
  · rw [if_neg hneg, if_neg hneg]
    rfl

/-- C3: an ERROR message carrying embedded code -19 raises DeviceNotFound,
code -95 raises OperationNotSupported, any other negative code raises the
generic NetlinkError carrying the negated (positive) code, and code 0
raises nothing and ends the receive loop normally as a successful ACK. -/
theorem C3_error_mapping (code : Int) (rest : List Nat) (seq : Nat)
    (h1 : -2147483648 ≤ code) (h2 : code < 2147483648)
    (hrest : 20 + rest.length < 4294967296) :
    (code = -19 → recv_msgs [pack_nlmsg 2 0 (packI32 code ++ rest) seq] []
        = Except.error NLExc.deviceNotFound) ∧
    (code = -95 → recv_msgs [pack_nlmsg 2 0 (packI32 code ++ rest) seq] []
        = Except.error NLExc.operationNotSupported) ∧
    (code < 0 → code ≠ -19 → code ≠ -95 →
      recv_msgs [pack_nlmsg 2 0 (packI32 code ++ rest) seq] []
        = Except.error (NLExc.netlinkError (-code))) ∧
    (code = 0 → recv_msgs [pack_nlmsg 2 0 (packI32 code ++ rest) seq] []
        = Except.ok (some [])) := by
  have h := recv_msgs_error code rest seq h1 h2 hrest
  refine ⟨?_, ?_, ?_, ?_⟩
  · intro hc
    subst hc
    rw [h, if_pos (by decide), if_pos (by decide)]
  · intro hc
    subst hc
    rw [h, if_pos (by decide), if_neg (by decide), if_pos (by decide)]
  · intro hneg hne19 hne95
    rw [h, if_pos hneg, if_neg (by omega), if_neg (by omega)]
  · intro hc
    subst hc
    rw [h, if_neg (by decide)]

/-- Witness for C3 at codes -19, -95, -5 and 0 (empty trailing payload,
sequence 1). -/
theorem C3_error_mapping_witness :
    recv_msgs [pack_nlmsg 2 0 (packI32 (-19) ++ []) 1] []
      = Except.error NLExc.deviceNotFound ∧
    recv_msgs [pack_nlmsg 2 0 (packI32 (-95) ++ []) 1] []
      = Except.error NLExc.operationNotSupported ∧
    recv_msgs [pack_nlmsg 2 0 (packI32 (-5) ++ []) 1] []
      = Except.error (NLExc.netlinkError 5) ∧
    recv_msgs [pack_nlmsg 2 0 (packI32 0 ++ []) 1] []
      = Except.ok (some []) :=
  ⟨(C3_error_mapping (-19) [] 1 (by decide) (by decide) (by decide)).1 rfl,
   (C3_error_mapping (-95) [] 1 (by decide) (by decide) (by decide)).2.1 rfl,
   (C3_error_mapping (-5) [] 1 (by decide) (by decide) (by decide)).2.2.1
     (by decide) (by decide) (by decide),
   (C3_error_mapping 0 [] 1 (by decide) (by decide) (by decide)).2.2.2 rfl⟩

/-- A framed netlink message as the kernel emits it: type, flags, sequence
number and payload bytes. -/
structure NLMsgModel where
  ty : Nat
  fl : Nat
  seq : Nat
  pl : List Nat
deriving DecidableEq

/-- One message on the wire: the packed message followed by padding to the
4-byte boundary at which the next message of the stream starts. -/
def encodeMsg (m : NLMsgModel) : List Nat :=
  pack_nlmsg m.ty m.fl m.pl m.seq ++
    List.replicate (align4 (16 + m.pl.length) - (16 + m.pl.length)) 0

/-- The bytes one `sock.recv` call returns: a run of whole messages. -/
def encodeChunk : List NLMsgModel → List Nat
  | [] => []
  | m :: tl => encodeMsg m ++ encodeChunk tl

/-- A data message: neither ERROR (2) nor DONE (3), within the u16/u32
ranges `struct.pack` accepts, and without the DUMP_INTR flag (0x10). -/
abbrev isDataMsg (m : NLMsgModel) : Prop :=
  m.ty ≠ 2 ∧ m.ty ≠ 3 ∧ m.ty < 65536 ∧ m.fl &&& 0x10 = 0 ∧ m.fl < 65536 ∧
    16 + m.pl.length < 4294967296

/-- A terminating message: DONE, or ERROR whose embedded signed code is
non-negative (a successful ACK), without the DUMP_INTR flag. -/
abbrev isTerminatorMsg (m : NLMsgModel) : Prop :=
  m.fl &&& 0x10 = 0 ∧ m.fl < 65536 ∧ 16 + m.pl.length < 4294967296 ∧
    (m.ty = 3 ∨ (m.ty = 2 ∧ ∃ code rest2, m.pl = packI32 code ++ rest2 ∧
      0 ≤ code ∧ code < 2147483648))

/-- The (type, payload) records `recv_msgs` collects for data messages. -/
def dataOf (l : List NLMsgModel) : List (Nat × List Nat) :=
  l.map fun m => (m.ty, m.pl)

/-- The successive `sock.recv` buffers: each chunk is one read, and the
terminating message arrives at the end of the last read. -/
def buildReads : List (List NLMsgModel) → NLMsgModel → List (List Nat)
  | [], dm => [encodeMsg dm]
  | [c], dm => [encodeChunk c ++ encodeMsg dm]
  | c :: rest, dm => encodeChunk c :: buildReads rest dm

theorem encodeMsg_length (m : NLMsgModel) :
    (encodeMsg m).length = align4 (16 + m.pl.length) := by
  have h := le_align4 (16 + m.pl.length)
  simp only [encodeMsg, List.length_append, pack_nlmsg_length, List.length_replicate]
  omega

theorem readI32_shift (pre d : List Nat) (i : Nat) :
    readI32 (pre ++ d) (pre.length + i) = readI32 d i := by
  simp only [readI32, read32_shift]

/-- One iteration of the receive loop positioned at a data message: the
record is appended and the offset advances by the aligned message length. -/
theorem recv_loop_data_step (pre rest : List Nat) (m : NLMsgModel)
    (msgs : List (Nat × List Nat)) (done : Bool) (hm : isDataMsg m) :
    recv_loop (pre ++ (encodeMsg m ++ rest)) pre.length msgs done
      = recv_loop (pre ++ (encodeMsg m ++ rest))
          (pre.length + (encodeMsg m).length) (msgs ++ [(m.ty, m.pl)]) done := by
  obtain ⟨hty2, hty3, htylt, hflag, hfllt, hlen⟩ := hm
  have hshape : encodeMsg m ++ rest
      = pack_nlmsg m.ty m.fl m.pl m.seq ++
          (List.replicate (align4 (16 + m.pl.length) - (16 + m.pl.length)) 0 ++ rest) := by
    simp [encodeMsg, List.append_assoc]
  have h0 : read32 (pre ++ (encodeMsg m ++ rest)) pre.length = 16 + m.pl.length := by
    have h := read32_shift pre (encodeMsg m ++ rest) 0
    rw [Nat.add_zero] at h
    rw [h, hshape]
    exact read32_nlmsg_len _ _ _ _ _ hlen
  have h4 : read16 (pre ++ (encodeMsg m ++ rest)) (pre.length + 4) = m.ty := by
    rw [read16_shift, hshape]
    exact read16_nlmsg_type _ _ _ _ _ htylt
  have h6 : read16 (pre ++ (encodeMsg m ++ rest)) (pre.length + 6) = m.fl := by
    rw [read16_shift, hshape]
    exact read16_nlmsg_flags _ _ _ _ _ hfllt
  have hL : (pre ++ (encodeMsg m ++ rest)).length
      = pre.length + align4 (16 + m.pl.length) + rest.length := by
    simp [encodeMsg_length]
    omega
  have halign := le_align4 (16 + m.pl.length)
  have hslice : pySlice (pre ++ (encodeMsg m ++ rest)) (pre.length + 16)
      (pre.length + (16 + m.pl.length)) = m.pl := by
    rw [pySlice_shift, hshape]
    exact pySlice_nlmsg _ _ _ _ _
  rw [recv_loop, h0, h4, h6]
  rw [if_pos (by rw [hL]; omega), if_neg (by rw [hL]; omega), if_neg (by omega),
    if_neg (by simp [hflag]), if_neg hty2, if_neg hty3, hslice, encodeMsg_length]

/-- One iteration of the receive loop positioned at a terminating message:
no record is appended, the done flag is set, and the offset advances. -/
theorem recv_loop_term_step (pre rest : List Nat) (m : NLMsgModel)
    (msgs : List (Nat × List Nat)) (done : Bool) (hm : isTerminatorMsg m) :
    recv_loop (pre ++ (encodeMsg m ++ rest)) pre.length msgs done
      = recv_loop (pre ++ (encodeMsg m ++ rest))
          (pre.length + (encodeMsg m).length) msgs true := by
  obtain ⟨hflag, hfllt, hlen, hterm⟩ := hm
  have hshape : encodeMsg m ++ rest
      = pack_nlmsg m.ty m.fl m.pl m.seq ++
          (List.replicate (align4 (16 + m.pl.length) - (16 + m.pl.length)) 0 ++ rest) := by
    simp [encodeMsg, List.append_assoc]
  have h0 : read32 (pre ++ (encodeMsg m ++ rest)) pre.length = 16 + m.pl.length := by
    have h := read32_shift pre (encodeMsg m ++ rest) 0
    rw [Nat.add_zero] at h
    rw [h, hshape]
    exact read32_nlmsg_len _ _ _ _ _ hlen
  have h6 : read16 (pre ++ (encodeMsg m ++ rest)) (pre.length + 6) = m.fl := by
    rw [read16_shift, hshape]
    exact read16_nlmsg_flags _ _ _ _ _ hfllt
  have hL : (pre ++ (encodeMsg m ++ rest)).length
      = pre.length + align4 (16 + m.pl.length) + rest.length := by
    simp [encodeMsg_length]
    omega
  have halign := le_align4 (16 + m.pl.length)
  rcases hterm with h3 | ⟨h2, code, rest2, hpl, hge, hcode⟩
  · have h4 : read16 (pre ++ (encodeMsg m ++ rest)) (pre.length + 4) = m.ty := by
      rw [read16_shift, hshape]
      exact read16_nlmsg_type _ _ _ _ _ (by omega)
    rw [h3] at h4
    rw [recv_loop, h0, h4, h6]
    rw [if_pos (by rw [hL]; omega), if_neg (by rw [hL]; omega), if_neg (by omega),
      if_neg (by simp [hflag]), if_neg (by decide), if_pos rfl, encodeMsg_length]
  · have h4 : read16 (pre ++ (encodeMsg m ++ rest)) (pre.length + 4) = m.ty := by
      rw [read16_shift, hshape]
      exact read16_nlmsg_type _ _ _ _ _ (by omega)
    rw [h2] at h4
    have hI : readI32 (pre ++ (encodeMsg m ++ rest)) (pre.length + 16) = code := by
      rw [readI32_shift, hshape, hpl]
      exact readI32_nlmsg_code _ _ _ _ _ _ (by omega) hcode
    have hplen : 4 ≤ m.pl.length := by
      rw [hpl]
      simp [packI32_length]
    rw [recv_loop, h0, h4, h6, hI]
    rw [if_pos (by rw [hL]; omega), if_neg (by rw [hL]; omega), if_neg (by omega),
      if_neg (by simp [hflag]), if_pos rfl, if_pos (by rw [hL]; omega),
      if_neg (by omega), encodeMsg_length]

/-- Scanning one read consisting solely of data messages appends exactly
their records, in order, and leaves the done flag unchanged. -/
theorem recv_loop_chunk (c : List NLMsgModel) :
    ∀ (pre : List Nat) (msgs : List (Nat × List Nat)) (done : Bool),
    (∀ m ∈ c, isDataMsg m) →
    recv_loop (pre ++ encodeChunk c) pre.length msgs done
      = Except.ok (msgs ++ dataOf c, done) := by
  induction c with
  | nil =>
    intro pre msgs done _
    rw [show encodeChunk [] = ([] : List Nat) from rfl, List.append_nil]
    rw [recv_loop, if_neg (by omega)]
    simp [dataOf]
  | cons m tl ih =>
    intro pre msgs done hc
    rw [show encodeChunk (m :: tl) = encodeMsg m ++ encodeChunk tl from rfl]
    rw [recv_loop_data_step pre (encodeChunk tl) m msgs done
      (hc m (List.mem_cons_self _ _))]
    have hofs : pre.length + (encodeMsg m).length = (pre ++ encodeMsg m).length := by
      simp
    have hbuf : pre ++ (encodeMsg m ++ encodeChunk tl)
        = (pre ++ encodeMsg m) ++ encodeChunk tl := by
      simp [List.append_assoc]
    rw [hofs, hbuf, ih (pre ++ encodeMsg m) (msgs ++ [(m.ty, m.pl)]) done
      (fun q hq => hc q (List.mem_cons_of_mem _ hq))]
    simp [dataOf]

/-- Scanning one read of data messages followed by a terminating message
appends exactly the data records and reports the loop as done. -/
theorem recv_loop_final (c : List NLMsgModel) (dm : NLMsgModel)
    (hdm : isTerminatorMsg dm) :
    ∀ (pre : List Nat) (msgs : List (Nat × List Nat)) (done : Bool),
    (∀ m ∈ c, isDataMsg m) →
    recv_loop (pre ++ (encodeChunk c ++ encodeMsg dm)) pre.length msgs done
      = Except.ok (msgs ++ dataOf c, true) := by
  induction c with
  | nil =>
    intro pre msgs done _
    rw [show encodeChunk [] ++ encodeMsg dm = encodeMsg dm ++ ([] : List Nat) by
      simp [encodeChunk]]
    rw [recv_loop_term_step pre [] dm msgs done hdm]
    rw [recv_loop, if_neg (by simp)]
    simp [dataOf]
  | cons m tl ih =>
    intro pre msgs done hc
    rw [show encodeChunk (m :: tl) ++ encodeMsg dm
        = encodeMsg m ++ (encodeChunk tl ++ encodeMsg dm) by
      simp [encodeChunk, List.append_assoc]]
    rw [recv_loop_data_step pre (encodeChunk tl ++ encodeMsg dm) m msgs done
      (hc m (List.mem_cons_self _ _))]
    have hofs : pre.length + (encodeMsg m).length = (pre ++ encodeMsg m).length := by
      simp
    have hbuf : pre ++ (encodeMsg m ++ (encodeChunk tl ++ encodeMsg dm))
        = (pre ++ encodeMsg m) ++ (encodeChunk tl ++ encodeMsg dm) := by
      simp [List.append_assoc]
    rw [hofs, hbuf, ih (pre ++ encodeMsg m) (msgs ++ [(m.ty, m.pl)]) done
      (fun q hq => hc q (List.mem_cons_of_mem _ hq))]
    simp [dataOf]

/-- Draining a dump spread over any number of reads: the collected records
are the accumulated ones plus every data record, in stream order. -/
theorem recv_msgs_buildReads (dm : NLMsgModel) (hdm : isTerminatorMsg dm) :
    ∀ (chunks : List (List NLMsgModel)) (msgs : List (Nat × List Nat)),
    (∀ c ∈ chunks, ∀ m ∈ c, isDataMsg m) →
    recv_msgs (buildReads chunks dm) msgs
      = Except.ok (some (msgs ++ dataOf chunks.flatten)) := by
  intro chunks
  induction chunks with
  | nil =>
    intro msgs _
    have hfin := recv_loop_final [] dm hdm [] msgs false (by simp)
    simp only [encodeChunk, List.nil_append, List.length_nil] at hfin
    rw [show buildReads [] dm = [encodeMsg dm] from rfl, recv_msgs, hfin]
    simp [dataOf]
  | cons c tl ih =>
    cases tl with
    | nil =>
      intro msgs hc
      have hfin := recv_loop_final c dm hdm [] msgs false
        (hc c (List.mem_cons_self _ _))
      simp only [List.nil_append, List.length_nil] at hfin
      rw [show buildReads [c] dm = [encodeChunk c ++ encodeMsg dm] from rfl,
        recv_msgs, hfin]
      simp
    | cons c2 tl2 =>
      intro msgs hc
      have hchunk := recv_loop_chunk c [] msgs false (hc c (List.mem_cons_self _ _))
      simp only [List.nil_append, List.length_nil] at hchunk
      rw [show buildReads (c :: c2 :: tl2) dm
          = encodeChunk c :: buildReads (c2 :: tl2) dm from rfl, recv_msgs, hchunk]
      have h2 := ih (msgs ++ dataOf c) (fun q hq => hc q (List.mem_cons_of_mem _ hq))
      simp only [if_neg Bool.false_ne_true]
      rw [h2]
      simp [dataOf, List.append_assoc]

/-- C4: a framed stream of data messages delivered across one or more
reads and terminated by a DONE (or successful-ACK ERROR) message is
drained into exactly the data records that precede the terminator, in
stream order, each message being left behind by advancing the offset by
its own declared length rounded up to a multiple of 4. -/
theorem C4_recv_msgs_dump (chunks : List (List NLMsgModel)) (dm : NLMsgModel)
    (hc : ∀ c ∈ chunks, ∀ m ∈ c, isDataMsg m) (hdm : isTerminatorMsg dm) :
    recv_msgs (buildReads chunks dm) []
      = Except.ok (some (dataOf chunks.flatten)) := by
  have h := recv_msgs_buildReads dm hdm chunks [] hc
  simpa using h

/-- Witness for C4: two DATA messages in the first read, the DONE message
alone in the second read; exactly the two data records come back in
order. -/
theorem C4_recv_msgs_dump_witness :
    recv_msgs (buildReads [[⟨16, 0, 1, [1, 2, 3, 4]⟩, ⟨16, 0, 1, [5, 6, 7, 8]⟩], []]
        ⟨3, 2, 1, [0, 0, 0, 0]⟩) []
      = Except.ok (some [(16, [1, 2, 3, 4]), (16, [5, 6, 7, 8])]) := by
  have h := C4_recv_msgs_dump
    [[⟨16, 0, 1, [1, 2, 3, 4]⟩, ⟨16, 0, 1, [5, 6, 7, 8]⟩], []]
    ⟨3, 2, 1, [0, 0, 0, 0]⟩ (by decide)
    ⟨by decide, by decide, by decide, Or.inl rfl⟩
  simpa [dataOf] using h

/-- Embedding of the `AddressInfo` frozen dataclass
(src/truenas_pynetif/address/netlink.py).  The first four fields are the
ones declared with `compare=True` (the default); all remaining fields are
declared `compare=False, hash=False` there. -/
structure AddressInfo where
  family : Nat
  prefixlen : Nat
  address : String
  broadcast : Option String
  flags : Nat
  scope : Nat
  index : Nat
  ifname : Option String
  ifa_local : Option String
  label : Option String
  proto : Option Nat
  valid_lft : Option Nat
  preferred_lft : Option Nat
deriving DecidableEq

def hexDigit (n : Nat) : Char :=
  if n < 10 then Char.ofNat (48 + n) else Char.ofNat (87 + n)

def hexGroup (hi lo : Nat) : String :=
  String.mk [hexDigit (hi / 16 % 16), hexDigit (hi % 16),
    hexDigit (lo / 16 % 16), hexDigit (lo % 16)]

def hexGroups : List Nat → List String
  | hi :: lo :: rest => hexGroup hi lo :: hexGroups rest
  | [hi] => [hexGroup hi 0]
  | [] => []

/-- Model of the foreign call `socket.inet_ntop(AF_INET, b)`: the dotted
decimal rendering of the first four bytes. -/
def ipv4String (b : List Nat) : String :=
  String.intercalate "." ((b.take 4).map (fun x => toString x))

/-- Model of the foreign call `socket.inet_ntop(AF_INET6, b)`.  The exact
textual form (zero compression) is not needed by any theorem below; the
model renders the eight 16-bit groups in full hex.  It is some string for
every 16-byte input, which is all the decoder relies on. -/
def ipv6String (b : List Nat) : String :=
  String.intercalate ":" (hexGroups (b.take 16))

/-- Embedding of `_format_address`: IPv4 needs at least 4 bytes, IPv6 at
least 16, anything else is None. -/
def format_address (family : Nat) (data : List Nat) : Option String :=
  if family = 2 ∧ 4 ≤ data.length then some (ipv4String data)
  else if family = 10 ∧ 16 ≤ data.length then some (ipv6String (data.take 16))
  else none

/-- Model of `bytes.rstrip(b"\x00")`. -/
def rstripZeros (b : List Nat) : List Nat :=
  (b.reverse.dropWhile (fun x => x == 0)).reverse

/-- Model of the foreign call `bytes.decode("utf-8", errors="replace")`:
a total deterministic rendering of the bytes as a string; no theorem below
depends on the exact characters produced. -/
def decodeUtf8Replace (b : List Nat) : String :=
  String.mk (b.map Char.ofNat)

/-- Address selection of `_parse_address_payload`: prefer IFA_ADDRESS (1),
fall back to IFA_LOCAL (2). -/
def addressField (family : Nat) (attrs : AttrMap) : Option String :=
  match attrs.lookup 1 with
  | some v => format_address family v
  | none =>
    match attrs.lookup 2 with
    | some v => format_address family v
    | none => none

def optFormat (family : Nat) (o : Option (List Nat)) : Option String :=
  match o with
  | some v => format_address family v
  | none => none

/-- IFA_LABEL (3) decoding. -/
def labelField (attrs : AttrMap) : Option String :=
  match attrs.lookup 3 with
  | some v => some (decodeUtf8Replace (rstripZeros v))
  | none => none

/-- IFA_PROTO (11) decoding: `attrs[IFAAttr.PROTO][0]` raises IndexError
on an empty attribute, modelled as the error case. -/
def protoField (attrs : AttrMap) : Except Unit (Option Nat) :=
  match attrs.lookup 11 with
  | none => Except.ok none
  | some [] => Except.error ()
  | some (b :: _) => Except.ok (some b)

/-- IFA_CACHEINFO (6) decoding: `struct.unpack("II", ci[:8])` reads
`ifa_prefered` then `ifa_valid`; 0xFFFFFFFF means forever and becomes
None.  Returns (preferred_lft, valid_lft); both None when the attribute is
absent or shorter than 8 bytes. -/
def cacheLifetimes (attrs : AttrMap) : Option Nat × Option Nat :=
  match attrs.lookup 6 with
  | some v =>
    if 8 ≤ v.length then
      (if read32 v 0 = 4294967295 then none else some (read32 v 0),
       if read32 v 4 = 4294967295 then none else some (read32 v 4))
    else (none, none)
  | none => (none, none)

/-- Embedding of `_parse_address_payload`
(src/truenas_pynetif/address/netlink.py): unpack the 8-byte `ifaddrmsg`
header, parse the attributes after it, select the address, and build the
`AddressInfo` record.  `resolve` models the interface-name cache argument
(`fun _ => none` when no cache is passed).  The error case models the
IndexError an empty IFA_PROTO attribute raises. -/
def _parse_address_payload (resolve : Nat → Option String) (payload : List Nat) :
    Except Unit (Option AddressInfo) :=
  if payload.length < 8 then Except.ok none
  else
    match addressField (payload.getD 0 0) (parse_attrs payload 8) with
    | none => Except.ok none
    | some addr =>
      if addr = "" then Except.ok none
      else
        match protoField (parse_attrs payload 8) with
        | Except.error e => Except.error e
        | Except.ok proto =>
          Except.ok (some (AddressInfo.mk
            (payload.getD 0 0)
            (payload.getD 1 0)
            addr
            (optFormat (payload.getD 0 0) ((parse_attrs payload 8).lookup 4))
            (payload.getD 2 0)
            (payload.getD 3 0)
            (read32 payload 4)
            (resolve (read32 payload 4))
            (optFormat (payload.getD 0 0) ((parse_attrs payload 8).lookup 2))
            (labelField (parse_attrs payload 8))
            proto
            (cacheLifetimes (parse_attrs payload 8)).2
            (cacheLifetimes (parse_attrs payload 8)).1))

/-- C8: whenever the address decoder returns a record and the CACHEINFO
attribute is present with at least 8 bytes, a lifetime field equal to
0xFFFFFFFF decodes to None (no expiry) and any other value decodes to the
literal integer; `ifa_prefered` is the first u32, `ifa_valid` the second. -/
theorem C8_cacheinfo_sentinel (resolve : Nat → Option String) (payload : List Nat)
    (info : AddressInfo) (ci : List Nat)
    (hok : _parse_address_payload resolve payload = Except.ok (some info))
    (hci : (parse_attrs payload 8).lookup 6 = some ci)
    (hlen : 8 ≤ ci.length) :
    info.valid_lft = (if read32 ci 4 = 4294967295 then none else some (read32 ci 4)) ∧
    info.preferred_lft
      = (if read32 ci 0 = 4294967295 then none else some (read32 ci 0)) := by
  unfold _parse_address_payload at hok
  split at hok
  · simp at hok
  · split at hok
    · simp at hok
    · split at hok
      · simp at hok
      · split at hok
        · simp at hok
        · rw [Except.ok.injEq, Option.some.injEq] at hok
          subst hok
          constructor
          · show (cacheLifetimes (parse_attrs payload 8)).2 = _
            simp only [cacheLifetimes, hci, if_pos hlen]
          · show (cacheLifetimes (parse_attrs payload 8)).1 = _
            simp only [cacheLifetimes, hci, if_pos hlen]

/-- Concrete NEWADDR payload for the C8 witness: ifaddrmsg for family
INET, prefixlen 24, index 3, followed by an IFA_ADDRESS attribute for
192.168.1.10 and an IFA_CACHEINFO attribute with ifa_prefered = 100 and
ifa_valid = 0xFFFFFFFF. -/
def c8Payload : List Nat :=
  [2, 24, 0, 0, 3, 0, 0, 0] ++
    (encodeAttrs [(1, [192, 168, 1, 10]),
      (6, pack32 100 ++ pack32 4294967295)] ++ [])

/-- The record the decoder builds for `c8Payload`. -/
def c8Info : AddressInfo :=
  AddressInfo.mk 2 24 "192.168.1.10" none 0 0 3 none none none none
    none (some 100)

/-- Witness for C8: the sentinel 0xFFFFFFFF valid lifetime decodes to None
while the preferred lifetime 100 decodes to the literal 100. -/
theorem C8_cacheinfo_sentinel_witness :
    _parse_address_payload (fun _ => none) c8Payload = Except.ok (some c8Info) ∧
    c8Info.valid_lft = none ∧ c8Info.preferred_lft = some 100 := by
  have hattrs : parse_attrs c8Payload 8
      = [(1, [192, 168, 1, 10]), (6, [100, 0, 0, 0, 255, 255, 255, 255])] :=
    parse_attrs_loop_encode
      [(1, [192, 168, 1, 10]), (6, pack32 100 ++ pack32 4294967295)]
      [2, 24, 0, 0, 3, 0, 0, 0] [] [] (by decide) (by decide)
  have hok : _parse_address_payload (fun _ => none) c8Payload
      = Except.ok (some c8Info) := by
    unfold _parse_address_payload
    rw [hattrs]
    rfl
  have hci : (parse_attrs c8Payload 8).lookup 6
      = some [100, 0, 0, 0, 255, 255, 255, 255] := by
    rw [hattrs]
    rfl
  have h := C8_cacheinfo_sentinel (fun _ => none) c8Payload c8Info
    [100, 0, 0, 0, 255, 255, 255, 255] hok hci (by decide)
  refine ⟨hok, ?_, ?_⟩
  · rw [h.1]
    decide
  · rw [h.2]
    decide

/-- Model of `ipaddress.IPv4Address(x).packed`: the four big-endian bytes
of the 32-bit address. -/
def ipv4Packed (a : Nat) : List Nat :=
  [a / 16777216 % 256, a / 65536 % 256, a / 256 % 256, a % 256]

/-- Model of
`ipaddress.IPv4Network(f"{address}/{prefixlen}", strict=False).broadcast_address`:
the network address (integer AND netmask) OR the host mask. -/
def ipv4BroadcastInt (addr prefixlen : Nat) : Nat :=
  (addr &&& (4294967295 - (2 ^ (32 - prefixlen) - 1))) ||| (2 ^ (32 - prefixlen) - 1)

/-- The broadcast payload `add_address` uses: the computed broadcast of
the enclosing network when none is given, the packed explicit broadcast
otherwise. -/
def bcastBytes (addr prefixlen : Nat) (broadcast : Option Nat) : List Nat :=
  match broadcast with
  | none => ipv4Packed (ipv4BroadcastInt addr prefixlen)
  | some b => ipv4Packed b

/-- Embedding of the request built by `add_address`
(src/truenas_pynetif/address/address.py) for an IPv4 address: the
`ifaddrmsg` header (family INET = 2, prefixlen, flags 0, scope 0, index)
followed by IFA_LOCAL (2), IFA_ADDRESS (1) and — the broadcast bytes being
non-empty — IFA_BROADCAST (4), packed as RTM_NEWADDR (20) with flags
REQUEST|ACK|CREATE|EXCL = 0x605 and the default sequence 1. -/
def add_address_request (addr prefixlen : Nat) (broadcast : Option Nat)
    (ifindex : Nat) : List Nat :=
  pack_nlmsg 20 1541
    (([2, prefixlen % 256, 0, 0] ++ pack32 ifindex) ++
      (pack_nlattr 2 (ipv4Packed addr) ++
        (pack_nlattr 1 (ipv4Packed addr) ++
          (if bcastBytes addr prefixlen broadcast = [] then []
           else pack_nlattr 4 (bcastBytes addr prefixlen broadcast))))) 1

/-- Attributes of a netlink message whose payload is an 8-byte fixed
header followed by encoded attributes: parsing from offset 24 (16-byte
message header plus the fixed part) recovers exactly those attributes. -/
theorem parse_attrs_nlmsg_attrs (ty fl seq : Nat) (fixed : List Nat)
    (l : List (Nat × List Nat)) (hfix : fixed.length = 8)
    (hl : ∀ p ∈ l, p.1 < 65536 ∧ 4 + p.2.length < 65536) :
    parse_attrs (pack_nlmsg ty fl (fixed ++ encodeAttrs l) seq) 24
      = dictOfAttrList l := by
  have key : pack_nlmsg ty fl (fixed ++ encodeAttrs l) seq
      = ((pack32 (16 + (fixed ++ encodeAttrs l).length) ++ (pack16 ty ++ (pack16 fl ++
          (pack32 seq ++ pack32 0)))) ++ fixed) ++ (encodeAttrs l ++ []) := by
    simp [pack_nlmsg, List.append_assoc]
  have h := parse_attrs_loop_encode l
    ((pack32 (16 + (fixed ++ encodeAttrs l).length) ++ (pack16 ty ++ (pack16 fl ++
      (pack32 seq ++ pack32 0)))) ++ fixed) [] [] hl (by decide)
  have hpre : (((pack32 (16 + (fixed ++ encodeAttrs l).length) ++ (pack16 ty ++
      (pack16 fl ++ (pack32 seq ++ pack32 0)))) ++ fixed) : List Nat).length = 24 := by
    simp [pack32_length, pack16_length, hfix]
  rw [hpre] at h
  rw [parse_attrs, key]
  exact h

theorem bcastBytes_ne_nil (addr prefixlen : Nat) (b : Option Nat) :
    bcastBytes addr prefixlen b ≠ [] := by
  cases b <;> simp [bcastBytes, ipv4Packed]

/-- C9: the request `add_address` builds for an IPv4 address carries a
BROADCAST attribute (type 4) whose payload is the packed broadcast address
of the enclosing network when no explicit broadcast is given, and the
packed explicit broadcast otherwise. -/
theorem C9_add_address_broadcast (addr prefixlen ifindex : Nat) (b : Option Nat)
    (ha : addr < 4294967296) (hp : prefixlen ≤ 32) (hi : ifindex < 4294967296) :
    parse_attrs (add_address_request addr prefixlen b ifindex) 24
      = [(2, ipv4Packed addr), (1, ipv4Packed addr),
         (4, bcastBytes addr prefixlen b)] ∧
    (parse_attrs (add_address_request addr prefixlen b ifindex) 24).lookup 4
      = some (bcastBytes addr prefixlen b) := by
  have hform : add_address_request addr prefixlen b ifindex
      = pack_nlmsg 20 1541 (([2, prefixlen % 256, 0, 0] ++ pack32 ifindex) ++
          encodeAttrs [(2, ipv4Packed addr), (1, ipv4Packed addr),
            (4, bcastBytes addr prefixlen b)]) 1 := by
    rw [add_address_request, if_neg (bcastBytes_ne_nil addr prefixlen b)]
    simp [encodeAttrs]
  have hl : ∀ p ∈ [(2, ipv4Packed addr), (1, ipv4Packed addr),
      (4, bcastBytes addr prefixlen b)], p.1 < 65536 ∧ 4 + p.2.length < 65536 := by
    intro p hp2
    have h4 : (ipv4Packed addr).length = 4 := rfl
    have h5 : (bcastBytes addr prefixlen b).length = 4 := by
      cases b <;> rfl
    rcases List.mem_cons.1 hp2 with h | h2
    · subst h
      exact ⟨by omega, by rw [h4]; omega⟩
    · rcases List.mem_cons.1 h2 with h | h3
      · subst h
        exact ⟨by omega, by rw [h4]; omega⟩
      · rcases List.mem_cons.1 h3 with h | h6
        · subst h
          exact ⟨by omega, by rw [h5]; omega⟩
        · simp at h6
  have h := parse_attrs_nlmsg_attrs 20 1541 1 ([2, prefixlen % 256, 0, 0] ++ pack32 ifindex)
    [(2, ipv4Packed addr), (1, ipv4Packed addr), (4, bcastBytes addr prefixlen b)]
    (by simp [pack32_length]) hl
  rw [hform, h]
  have hd : dictOfAttrList [(2, ipv4Packed addr), (1, ipv4Packed addr),
      (4, bcastBytes addr prefixlen b)]
      = [(2, ipv4Packed addr), (1, ipv4Packed addr),
         (4, bcastBytes addr prefixlen b)] := by
    have k2 : (2 : Nat) &&& 32767 = 2 := by decide
    have k1 : (1 : Nat) &&& 32767 = 1 := by decide
    have k4 : (4 : Nat) &&& 32767 = 4 := by decide
    simp [dictOfAttrList, dictInsert, k1, k2, k4]
  rw [hd]
  exact ⟨rfl, by simp [List.lookup]⟩

/-- Witness for C9: adding 192.168.1.10/24 (3232235786) with no explicit
broadcast yields the packed bytes of 192.168.1.255; an explicit broadcast
192.168.1.123 yields its own packed bytes. -/
theorem C9_add_address_broadcast_witness :
    (parse_attrs (add_address_request 3232235786 24 none 3) 24).lookup 4
      = some [192, 168, 1, 255] ∧
    (parse_attrs (add_address_request 3232235786 24 (some 3232235899) 3) 24).lookup 4
      = some [192, 168, 1, 123] := by
  constructor
  · have h := (C9_add_address_broadcast 3232235786 24 3 none (by decide) (by decide)
      (by decide)).2
    rw [h]
    decide
  · have h := (C9_add_address_broadcast 3232235786 24 3 (some 3232235899) (by decide)
      (by decide) (by decide)).2
    rw [h]
    decide

/-- The tuple of fields the `AddressInfo` dataclass declares (by default)
as taking part in comparison: family, prefixlen, address, broadcast. -/
def addressInfoEqKey (a : AddressInfo) : Nat × Nat × String × Option String :=
  (a.family, a.prefixlen, a.address, a.broadcast)

/-- Model of the generated dataclass `__eq__`: two records compare equal
exactly when their tuples of compare=True fields are equal. -/
def addressInfoEq (a b : AddressInfo) : Prop :=
  addressInfoEqKey a = addressInfoEqKey b

/-- Model of the generated frozen-dataclass `__hash__`: the hash of the
tuple of the fields not marked `hash=False`, modelled as that tuple itself
(so equal tuples have equal hashes). -/
def addressInfoHash (a : AddressInfo) : Nat × Nat × String × Option String :=
  addressInfoEqKey a

/-- C10: two `AddressInfo` records compare equal (and hash equal) exactly
when their family, prefixlen, address and broadcast fields agree; flags,
scope, index, ifname, local, label, proto and the lifetimes — left free on
both sides — never influence equality or hashing. -/
theorem C10_addressinfo_equality (a b : AddressInfo) :
    (addressInfoEq a b ↔ (a.family = b.family ∧ a.prefixlen = b.prefixlen ∧
      a.address = b.address ∧ a.broadcast = b.broadcast)) ∧
    (addressInfoHash a = addressInfoHash b ↔ (a.family = b.family ∧
      a.prefixlen = b.prefixlen ∧ a.address = b.address ∧
      a.broadcast = b.broadcast)) := by
  constructor <;>
    simp [addressInfoEq, addressInfoHash, addressInfoEqKey, Prod.ext_iff]

end PyNetif
